import Mathlib

/-!
# Verification of the `simpleconversions` merge/reconcile logic

Shallow embedding of `src/html_table_to_csv_v2.py` (the v2 converter with the
merge & reconcile engine).  Tables are modelled as ordered lists of rows; a row
is an association list from column name to cell value, in column order.  Cell
values are the scalar values pandas produces for these tables: strings,
integers, normalized dates, and missing values (`NaN`/`NaT`).

External collaborators (`pandas.read_html`, CSV serialization, the filesystem)
are outside the embedding: the loader takes the already-parsed table, and the
merge pipeline returns the table that would be written to `merged.csv` together
with the discrepancy list that would be printed.
-/

/-- A scalar cell value: string, integer, normalized date (encoded as
`year*10000 + month*100 + day`), or missing (`NaN`/`NaT`). -/
inductive Value where
  | str (s : String)
  | int (n : Int)
  | date (n : Nat)
  | na
deriving DecidableEq, Repr

/-- A row: cells keyed by column name, in column order (a pandas Series). -/
abbrev Row := List (String × Value)

/-- A data frame: ordered column names and ordered rows.  Well-formed tables
have each row keyed exactly by `cols`, in order. -/
structure Table where
  cols : List String
  rows : List Row
deriving DecidableEq, Repr

/-- `row[col]`: first cell with the given column name (`Value.na` if absent;
in well-formed use the column is always present). -/
def getCell (r : Row) (c : String) : Value :=
  ((r.find? (fun p => p.1 = c)).map Prod.snd).getD .na

/-- `pd.isna`: only the missing value is NA. -/
def isna : Value → Bool
  | .na => true
  | _ => false

/-- Python scalar `!=` as it behaves on these cell values: `NaN` compares
unequal to everything (itself included), equal-looking values of different
types (e.g. the number `5` and the string `"5"`) compare unequal. -/
def pyNe : Value → Value → Bool
  | .na, _ => true
  | _, .na => true
  | .str a, .str b => a ≠ b
  | .int a, .int b => a ≠ b
  | .date a, .date b => a ≠ b
  | _, _ => true

/-- `APP_REF_NAME` from the source. -/
def APP_REF_NAME : String := "Application Reference"

/-- `ACTION_COL_NAME` from the source. -/
def ACTION_COL_NAME : String := "Transaction Type"

/-- Character-level prefix test. -/
def isPrefixChars : List Char → List Char → Bool
  | [], _ => true
  | _ :: _, [] => false
  | a :: as, b :: bs => a = b && isPrefixChars as bs

/-- Character-level substring test (Python's `in` on strings). -/
def isInfixChars (pat : List Char) : List Char → Bool
  | [] => pat.isEmpty
  | c :: rest => isPrefixChars pat (c :: rest) || isInfixChars pat rest

/-- Python `str.lower`, character by character. -/
def lowerChars (s : String) : List Char := s.toList.map Char.toLower

/-- Python `str.strip`: drop leading and trailing whitespace. -/
def strip (s : String) : String :=
  String.mk (((s.toList.dropWhile Char.isWhitespace).reverse.dropWhile
    Char.isWhitespace).reverse)

/-- `"date" in str(col).lower()`. -/
def containsDate (c : String) : Bool :=
  isInfixChars "date".toList (lowerChars c)

/-- Python `str()` on a cell value, as used by `.astype(str)` when a data row
is promoted to the header row. -/
def valueToStr : Value → String
  | .str s => s
  | .int n => toString n
  | .date n => toString n
  | .na => "nan"

/-- Re-key every row of a table by a new list of column names, positionally
(the effect of assigning `df.columns = ...`). -/
def rekey (cols : List String) (rows : List Row) : List Row :=
  rows.map (fun r => cols.zip (r.map Prod.snd))

/-- `normalize_columns` from the source.  `none` models the uncaught
`IndexError` raised by `df.iloc[0]` when the frame has no data rows and the
headers do not already contain both designated names. -/
def normalize_columns (t : Table) : Option Table :=
  let cols := t.cols.map strip
  if APP_REF_NAME ∈ cols ∧ ACTION_COL_NAME ∈ cols then
    some { cols := cols, rows := rekey cols t.rows }
  else
    match t.rows with
    | [] => none
    | r0 :: rest =>
      let first_row := r0.map (fun p => strip (valueToStr p.2))
      if APP_REF_NAME ∈ first_row ∧ ACTION_COL_NAME ∈ first_row then
        some { cols := first_row, rows := rekey first_row rest }
      else
        some t

/-- `find_date_column` from the source: first column whose name contains
`"date"` case-insensitively, else none. -/
def find_date_column (t : Table) : Option String :=
  t.cols.find? containsDate

/-- `df["_source_file"] = input_file`: tag every row with its origin file. -/
def tagSource (filename : String) (t : Table) : Table :=
  { cols := t.cols ++ ["_source_file"],
    rows := t.rows.map (fun r => r ++ [("_source_file", Value.str filename)]) }

/-- `load_table` from the source, after `pd.read_html` (external) has produced
`parsed`: normalize headers, then tag rows with the source file name.  `none`
propagates the uncaught exception of `normalize_columns`; the recoverable
"no tables found" skip happens before this point, in the caller. -/
def load_table (filename : String) (parsed : Table) : Option Table :=
  (normalize_columns parsed).map (tagSource filename)

/-! ## Discrepancy detection (`detect_discrepancies`) -/

/-- The composite key of a row: `(date, Application Reference, Transaction
Type)` cell values.  `groupby(..., dropna=False)` groups missing key values
together, which structural equality of `Value` reproduces (`na = na`). -/
def rowKey (date_col ref_col action_col : String) (r : Row) :
    Value × Value × Value :=
  (getCell r date_col, getCell r ref_col, getCell r action_col)

/-- First-occurrence deduplication, skipping elements already seen. -/
def uniqueFirstAux {α : Type} [DecidableEq α] (seen : List α) :
    List α → List α
  | [] => []
  | a :: l =>
    if a ∈ seen then uniqueFirstAux seen l
    else a :: uniqueFirstAux (a :: seen) l

/-- First-occurrence deduplication of a list, as `Series.unique` (and as the
set of keys a `groupby` produces). -/
def uniqueFirst {α : Type} [DecidableEq α] (l : List α) : List α :=
  uniqueFirstAux [] l

/-- The group of rows of `t` sharing the composite key `key`, in row order. -/
def groupOf (t : Table) (date_col ref_col action_col : String)
    (key : Value × Value × Value) : List Row :=
  t.rows.filter (fun r => rowKey date_col ref_col action_col r = key)

/-- `group["_source_file"].unique()`: the distinct source files of a group,
in first-occurrence order. -/
def sourcesOf (t : Table) (date_col ref_col action_col : String)
    (key : Value × Value × Value) : List Value :=
  uniqueFirst ((groupOf t date_col ref_col action_col key).map
    (fun r => getCell r "_source_file"))

/-- The reference row of a group: the first row originating from the group's
first-encountered source file.  (The filter result is never empty when the
group is nonempty; the default only totalizes the Lean function.) -/
def refRowOf (t : Table) (date_col ref_col action_col : String)
    (key : Value × Value × Value) : Row :=
  ((groupOf t date_col ref_col action_col key).filter
    (fun r => getCell r "_source_file" =
      (sourcesOf t date_col ref_col action_col key).headD .na)).headD []

/-- One discrepancy report, as built by `detect_discrepancies`: the composite
key, the two source files, and the differing columns with both values
(`differences` keyed by column name, in column order). -/
structure Discrepancy where
  key : Value × Value × Value
  file_a : Value
  file_b : Value
  differences : List (String × Value × Value)
deriving DecidableEq, Repr

/-- The column-by-column comparison of one row against the reference row:
key columns and the source tag are skipped, a pair of missing values is
skipped, any other pair with Python `a != b` is recorded. -/
def diffsAgainst (cols : List String) (date_col ref_col action_col : String)
    (reference_row row : Row) : List (String × Value × Value) :=
  cols.filterMap (fun col =>
    if col = date_col ∨ col = ref_col ∨ col = action_col ∨ col = "_source_file"
    then none
    else
      let a := getCell reference_row col
      let b := getCell row col
      if isna a ∧ isna b then none
      else if pyNe a b then some (col, a, b) else none)

/-- `detect_discrepancies` from the source.  Groups rows by composite key
(`dropna=False`), skips single-file groups, and compares every row of every
non-reference file against the reference row.  One modelling choice: pandas
iterates `groupby` keys in sorted key order, which only permutes reports of
distinct keys across groups; we iterate keys in first-occurrence order.  No
property proved below depends on the inter-group order of the reports. -/
def detect_discrepancies (t : Table)
    (date_col ref_col action_col : String) : List Discrepancy :=
  let keys := uniqueFirst (t.rows.map (rowKey date_col ref_col action_col))
  keys.flatMap (fun key =>
    let group := groupOf t date_col ref_col action_col key
    let source_files := sourcesOf t date_col ref_col action_col key
    if source_files.length ≤ 1 then []
    else
      let reference_row := refRowOf t date_col ref_col action_col key
      (source_files.drop 1).flatMap (fun src =>
        let compare_rows := group.filter
          (fun r => getCell r "_source_file" = src)
        compare_rows.filterMap (fun row =>
          let diffs := diffsAgainst t.cols date_col ref_col action_col
            reference_row row
          if diffs.isEmpty then none
          else some { key := key,
                      file_a := getCell reference_row "_source_file",
                      file_b := getCell row "_source_file",
                      differences := diffs })))

/-! ## The merge & reconcile pipeline (`merge_all`) -/

/-- `common_cols = set.intersection(*(set(df.columns) for df in dfs))`.
Python set iteration order is unspecified; we fix the deterministic
refinement the spec recommends, first-seen order from the first table.  No
property proved below depends on the order of the merged table's columns. -/
def common_columns (dfs : List Table) : List String :=
  match dfs with
  | [] => []
  | d :: rest => d.cols.filter (fun c => rest.all (fun t => c ∈ t.cols))

/-- `df[list(common_cols)]`: project a table onto the given columns. -/
def projectTo (cols : List String) (t : Table) : Table :=
  { cols := cols, rows := t.rows.map (fun r => cols.map (fun c => (c, getCell r c))) }

/-- A day-first calendar date as a `Value`, provided the fields are in
range. -/
def mkDate (y m d : Nat) : Option Value :=
  if 1 ≤ m ∧ m ≤ 12 ∧ 1 ≤ d ∧ d ≤ 31 then
    some (.date (y * 10000 + m * 100 + d))
  else none

/-- Split a character list on a separator character. -/
def splitOnChar (sep : Char) : List Char → List (List Char)
  | [] => [[]]
  | c :: rest =>
    let r := splitOnChar sep rest
    if c = sep then [] :: r
    else
      match r with
      | [] => [[c]]
      | h :: t => (c :: h) :: t

/-- Read a nonempty all-digit character list as a number. -/
def digitsToNat? (l : List Char) : Option Nat :=
  if ¬ l = [] ∧ l.all Char.isDigit then
    some (l.foldl (fun n c => n * 10 + (c.toNat - 48)) 0)
  else none

/-- `pd.to_datetime(v, errors="coerce", dayfirst=True)` on one cell, external
to the repository; modelled on the formats its inputs exercise: ISO
`yyyy-mm-dd` (day-first does not reinterpret ISO dates) and day-first
`dd/mm/yyyy`.  Anything else coerces to missing, and an already-normalized
date passes through. -/
def parse_date (v : Value) : Value :=
  match v with
  | .date n => .date n
  | .str s =>
    (match splitOnChar '-' s.toList with
     | [y, m, d] =>
       (match digitsToNat? y, digitsToNat? m, digitsToNat? d with
        | some yn, some mn, some dn =>
          if y.length = 4 then (mkDate yn mn dn).getD .na else .na
        | _, _, _ => .na)
     | _ =>
       (match splitOnChar '/' s.toList with
        | [d, m, y] =>
          (match digitsToNat? d, digitsToNat? m, digitsToNat? y with
           | some dn, some mn, some yn =>
             if y.length = 4 then (mkDate yn mn dn).getD .na else .na
           | _, _, _ => .na)
        | _ => .na))
  | _ => .na

/-- `df[c] = f(df[c])`: rewrite one column of every row. -/
def mapColumn (t : Table) (c : String) (f : Value → Value) : Table :=
  { cols := t.cols,
    rows := t.rows.map (fun r =>
      r.map (fun p => if p.1 = c then (p.1, f p.2) else p)) }

/-- `drop_duplicates(subset=[date, ref, action], keep="first")` on the row
list: keep a row iff its composite key has not been seen before.  (pandas
treats `NaN` key components as equal when identifying duplicates, as does
structural equality of `Value`.) -/
def dropDupAux (k : Row → Value × Value × Value)
    (seen : List (Value × Value × Value)) : List Row → List Row
  | [] => []
  | r :: rest =>
    if k r ∈ seen then dropDupAux k seen rest
    else r :: dropDupAux k (k r :: seen) rest

/-- Ordering of date-column cells under `sort_values`: ascending dates with
missing dates placed last (`na_position="last"`).  After date normalization
the column holds only dates and missing values; other constructors do not
occur there. -/
def dateLeVal : Value → Value → Bool
  | .na, .na => true
  | .na, _ => false
  | _, .na => true
  | .date m, .date n => m ≤ n
  | _, _ => true

/-- Insert a row into a sorted row list, before the first row not strictly
below it. -/
def orderedInsertRow (c : String) (r : Row) : List Row → List Row
  | [] => [r]
  | x :: xs =>
    if dateLeVal (getCell r c) (getCell x c) then r :: x :: xs
    else x :: orderedInsertRow c r xs

/-- `df.sort_values(by=c)` on the row list.  pandas' default
`kind="quicksort"` does not promise a tie order; we model the sort as this
stable insertion sort on the date key.  Every property proved below about
the sorted table is invariant under the order of ties (it depends only on
the sorted list being a permutation of its input). -/
def sort_values (c : String) : List Row → List Row
  | [] => []
  | r :: rest => orderedInsertRow c r (sort_values c rest)

/-- `df.drop(columns=[c])`. -/
def dropColumn (c : String) (t : Table) : Table :=
  { cols := t.cols.filter (fun c2 => ¬ c2 = c),
    rows := t.rows.map (fun r => r.filter (fun p => ¬ p.1 = c)) }

/-- The fatal error exits of `merge_all` (each prints a message and calls
`sys.exit(1)` before any merged CSV is written). -/
inductive MergeError where
  | noTables
  | missingColumn (c : String)
  | noDateColumn
deriving DecidableEq, Repr

/-- The observable outcome of a successful merge run: the table written to
`merged.csv`, the discrepancy reports printed, and the detected date
column. -/
structure MergeResult where
  merged : Table
  discrepancies : List Discrepancy
  date_col : String
deriving DecidableEq, Repr

/-- Steps 1–2 of the engine: project every table onto the common columns and
stack the projected tables (`pd.concat(dfs, ignore_index=True)`), preserving
per-file row order and file order. -/
def concatProjected (dfs : List Table) : Table :=
  { cols := common_columns dfs,
    rows := ((dfs.map (projectTo (common_columns dfs))).map Table.rows).flatten }

/-- Step 4: normalize the date column (`pd.to_datetime(..., dayfirst=True,
errors="coerce")`). -/
def normalizeDates (t : Table) (date_col : String) : Table :=
  mapColumn t date_col parse_date

/-- Step 6: `drop_duplicates(subset=[date_col, APP_REF_NAME,
ACTION_COL_NAME], keep="first")`. -/
def dedupByKey (t : Table) (date_col : String) : Table :=
  { t with
    rows := dropDupAux (rowKey date_col APP_REF_NAME ACTION_COL_NAME) [] t.rows }

/-- Step 7: `sort_values(by=date_col)`. -/
def sortByDate (t : Table) (date_col : String) : Table :=
  { t with rows := sort_values date_col t.rows }

/-- `merge_all` from the source, taking the successfully loaded (normalized,
tagged) tables: intersect columns, concatenate, validate the key columns and
the date column, normalize dates, detect discrepancies, deduplicate on the
composite key, sort by date, strip the source tag. -/
def merge_all (dfs : List Table) : Except MergeError MergeResult :=
  if dfs.isEmpty then .error .noTables
  else
    let merged := concatProjected dfs
    if ¬ APP_REF_NAME ∈ merged.cols then
      .error (.missingColumn APP_REF_NAME)
    else if ¬ ACTION_COL_NAME ∈ merged.cols then
      .error (.missingColumn ACTION_COL_NAME)
    else
      match find_date_column merged with
      | none => .error .noDateColumn
      | some date_col =>
        let merged := normalizeDates merged date_col
        .ok { merged := dropColumn "_source_file"
                (sortByDate (dedupByKey merged date_col) date_col),
              discrepancies := detect_discrepancies merged date_col
                APP_REF_NAME ACTION_COL_NAME,
              date_col := date_col }

/-! ## Concrete scenario tables -/

/-- File A's parsed table in the two-file reconciliation scenario: one row,
ISO date, amount 100. -/
def tblA : Table :=
  { cols := ["Date", "Application Reference", "Transaction Type", "amount"],
    rows := [[("Date", .str "2024-01-05"),
              ("Application Reference", .str "APP1"),
              ("Transaction Type", .str "DEBIT"),
              ("amount", .int 100)]] }

/-- File B's parsed table in the two-file reconciliation scenario: one row,
day-first date `05/01/2024` (the same day), amount 150. -/
def tblB : Table :=
  { cols := ["Date", "Application Reference", "Transaction Type", "amount"],
    rows := [[("Date", .str "05/01/2024"),
              ("Application Reference", .str "APP1"),
              ("Transaction Type", .str "DEBIT"),
              ("amount", .int 150)]] }

/-- File A's table as the loader produces it (headers kept, source tag). -/
def dfA : Table := (load_table "a.html" tblA).getD { cols := [], rows := [] }

/-- File B's table as the loader produces it. -/
def dfB : Table := (load_table "b.html" tblB).getD { cols := [], rows := [] }

/-- A concatenated two-file table whose two rows have entirely missing
composite keys, a type-mismatched pair `5` vs `"5"` in column `x`, and a
missing-vs-missing pair in column `y`. -/
def tMissingKeys : Table :=
  { cols := ["d", "r", "a", "x", "y", "_source_file"],
    rows := [[("d", .na), ("r", .na), ("a", .na), ("x", .int 5), ("y", .na),
              ("_source_file", .str "f1.html")],
             [("d", .na), ("r", .na), ("a", .na), ("x", .str "5"), ("y", .na),
              ("_source_file", .str "f2.html")]] }

/-- A concatenated table with one composite-key group: two rows from
`f1.html` (the second of which, `x = 777`, differs from every other row) and
one row from `f2.html`. -/
def tExtraRefRows : Table :=
  { cols := ["d", "r", "a", "x", "_source_file"],
    rows := [[("d", .str "K"), ("r", .str "K"), ("a", .str "K"),
              ("x", .int 1), ("_source_file", .str "f1.html")],
             [("d", .str "K"), ("r", .str "K"), ("a", .str "K"),
              ("x", .int 777), ("_source_file", .str "f1.html")],
             [("d", .str "K"), ("r", .str "K"), ("a", .str "K"),
              ("x", .int 3), ("_source_file", .str "f2.html")]] }

/-- A single-file table: two rows from the same source share a composite key
and differ in a non-key column. -/
def tSingleFile : Table :=
  { cols := ["d", "r", "a", "x", "_source_file"],
    rows := [[("d", .str "K"), ("r", .str "K"), ("a", .str "K"),
              ("x", .int 1), ("_source_file", .str "f1.html")],
             [("d", .str "K"), ("r", .str "K"), ("a", .str "K"),
              ("x", .int 2), ("_source_file", .str "f1.html")]] }

/-- A parsed table whose headers contain both designated names but whose
third header carries surrounding whitespace. -/
def tPaddedHeader : Table :=
  { cols := [APP_REF_NAME, ACTION_COL_NAME, " Padded Col "], rows := [] }

/-- A parsed table with generic headers whose first data row holds the
designated column names (one of them padded with whitespace). -/
def tPromote : Table :=
  { cols := ["0", "1"],
    rows := [[("0", .str " Application Reference "),
              ("1", .str "Transaction Type")],
             [("0", .str "APP1"), ("1", .str "DEBIT")]] }

/-- A loaded table carrying neither designated key column. -/
def tNoKeyCols : Table :=
  { cols := ["x", "_source_file"],
    rows := [[("x", .int 1), ("_source_file", .str "f1.html")]] }

example : containsDate "Transaction Date" = true := by decide

example : containsDate "_source_file" = false := by decide
example : find_date_column { cols := ["x", "Date", "Update"], rows := [] } = some "Date" := by decide
example : pyNe (.int 5) (.str "5") = true := by decide
example : pyNe .na .na = true := by decide
example :
    normalize_columns { cols := ["A", "B"], rows := [] } = none := by decide

/-! ## Helper lemmas -/

theorem find?_filter_other (r : Row) (c x : String) (hcx : ¬ c = x) :
    (r.filter (fun p => ¬ p.1 = x)).find? (fun p => p.1 = c) =
      r.find? (fun p => p.1 = c) := by
  induction r with
  | nil => rfl
  | cons p rest ih =>
    rw [List.filter_cons]
    by_cases hpx : p.1 = x
    · have hpc : ¬ p.1 = c := fun h => hcx (h ▸ hpx)
      rw [if_neg (by simp [hpx]), List.find?_cons_of_neg _ (by simp [hpc])]
      exact ih
    · rw [if_pos (by simp [hpx])]
      by_cases hpc : p.1 = c
      · rw [List.find?_cons_of_pos _ (by simp [hpc]),
          List.find?_cons_of_pos _ (by simp [hpc])]
      · rw [List.find?_cons_of_neg _ (by simp [hpc]),
          List.find?_cons_of_neg _ (by simp [hpc])]
        exact ih

theorem getCell_filter_ne (r : Row) (c x : String) (hcx : ¬ c = x) :
    getCell (r.filter (fun p => ¬ p.1 = x)) c = getCell r c := by
  rw [getCell, getCell, find?_filter_other r c x hcx]

theorem rowKey_filter_source (dc rc ac : String) (r : Row)
    (h1 : ¬ dc = "_source_file") (h2 : ¬ rc = "_source_file")
    (h3 : ¬ ac = "_source_file") :
    rowKey dc rc ac (r.filter (fun p => ¬ p.1 = "_source_file")) =
      rowKey dc rc ac r := by
  simp only [rowKey, getCell_filter_ne _ _ _ h1, getCell_filter_ne _ _ _ h2,
    getCell_filter_ne _ _ _ h3]

theorem uniqueFirstAux_all_seen {α : Type} [DecidableEq α] :
    ∀ (seen l : List α), (∀ b ∈ l, b ∈ seen) → uniqueFirstAux seen l = [] := by
  intro seen l
  induction l with
  | nil => intro _; rfl
  | cons a rest ih =>
    intro h
    have ha : a ∈ seen := h a (List.mem_cons_self a rest)
    simp only [uniqueFirstAux, if_pos ha]
    exact ih (fun b hb => h b (List.mem_cons_of_mem a hb))

theorem uniqueFirst_length_le_one {α : Type} [DecidableEq α] (l : List α)
    (h : ∀ a ∈ l, ∀ b ∈ l, a = b) : (uniqueFirst l).length ≤ 1 := by
  cases l with
  | nil => exact Nat.zero_le 1
  | cons a rest =>
    have : uniqueFirstAux [a] rest = [] := by
      apply uniqueFirstAux_all_seen
      intro b hb
      have : b = a := h b (List.mem_cons_of_mem a hb) a (List.mem_cons_self a rest)
      simp [this]
    simp [uniqueFirst, uniqueFirstAux, this]

theorem dropDupAux_not_seen {k : Row → Value × Value × Value} :
    ∀ {seen : List (Value × Value × Value)} {l : List Row},
      ∀ r ∈ dropDupAux k seen l, ¬ k r ∈ seen := by
  intro seen l
  induction l generalizing seen with
  | nil => intro r hr; cases hr
  | cons r0 rest ih =>
    intro r hr
    by_cases h0 : k r0 ∈ seen
    · rw [dropDupAux, if_pos h0] at hr
      exact ih r hr
    · rw [dropDupAux, if_neg h0] at hr
      rcases List.mem_cons.mp hr with h | h
      · subst h; exact h0
      · intro hmem
        exact ih r h (List.mem_cons_of_mem _ hmem)

theorem dropDupAux_pairwise (k : Row → Value × Value × Value) :
    ∀ (seen : List (Value × Value × Value)) (l : List Row),
      (dropDupAux k seen l).Pairwise (fun r1 r2 => ¬ k r1 = k r2) := by
  intro seen l
  induction l generalizing seen with
  | nil => exact List.Pairwise.nil
  | cons r0 rest ih =>
    by_cases h0 : k r0 ∈ seen
    · rw [dropDupAux, if_pos h0]; exact ih seen
    · rw [dropDupAux, if_neg h0]
      refine List.Pairwise.cons ?_ (ih _)
      intro r hr he
      exact dropDupAux_not_seen r hr (he ▸ List.mem_cons_self _ _)

theorem dropDupAux_sublist (k : Row → Value × Value × Value) :
    ∀ (seen : List (Value × Value × Value)) (l : List Row),
      (dropDupAux k seen l).Sublist l := by
  intro seen l
  induction l generalizing seen with
  | nil => exact List.Sublist.refl _
  | cons r0 rest ih =>
    by_cases h0 : k r0 ∈ seen
    · rw [dropDupAux, if_pos h0]; exact (ih seen).cons r0
    · rw [dropDupAux, if_neg h0]; exact (ih _).cons₂ r0

theorem dropDupAux_covers {k : Row → Value × Value × Value} :
    ∀ (seen : List (Value × Value × Value)) (l : List Row) (r : Row),
      r ∈ l → ¬ k r ∈ seen → ∃ r' ∈ dropDupAux k seen l, k r' = k r := by
  intro seen l
  induction l generalizing seen with
  | nil => intro r hr; cases hr
  | cons r0 rest ih =>
    intro r hr hseen
    by_cases h0 : k r0 ∈ seen
    · rw [dropDupAux, if_pos h0]
      rcases List.mem_cons.mp hr with h | h
      · subst h; exact absurd h0 hseen
      · exact ih seen r h hseen
    · rw [dropDupAux, if_neg h0]
      rcases List.mem_cons.mp hr with h | h
      · subst h; exact ⟨r, List.mem_cons_self _ _, rfl⟩
      · by_cases hk : k r = k r0
        · exact ⟨r0, List.mem_cons_self _ _, hk.symm⟩
        · have hne : ¬ k r ∈ (k r0 :: seen) := by
            intro hm
            rcases List.mem_cons.mp hm with h' | h'
            exacts [hk h', hseen h']
          rcases ih _ r h hne with ⟨r', hr', hk'⟩
          exact ⟨r', List.mem_cons_of_mem _ hr', hk'⟩

theorem dropDupAux_first {k : Row → Value × Value × Value} :
    ∀ (seen : List (Value × Value × Value)) (l : List Row) (r' : Row),
      r' ∈ dropDupAux k seen l →
      ∃ l1 l2, l = l1 ++ r' :: l2 ∧ ∀ r0 ∈ l1, k r0 ∈ seen ∨ ¬ k r0 = k r' := by
  intro seen l
  induction l generalizing seen with
  | nil => intro r' hr'; cases hr'
  | cons r0 rest ih =>
    intro r' hr'
    by_cases h0 : k r0 ∈ seen
    · rw [dropDupAux, if_pos h0] at hr'
      rcases ih seen r' hr' with ⟨l1, l2, hsplit, hl1⟩
      refine ⟨r0 :: l1, l2, by rw [hsplit, List.cons_append], ?_⟩
      intro r1 hr1
      rcases List.mem_cons.mp hr1 with h | h
      · subst h; exact Or.inl h0
      · exact hl1 r1 h
    · rw [dropDupAux, if_neg h0] at hr'
      rcases List.mem_cons.mp hr' with h | h
      · subst h; exact ⟨[], rest, rfl, by intro r1 hr1; cases hr1⟩
      · have hnotin := dropDupAux_not_seen r' h
        rcases ih _ r' h with ⟨l1, l2, hsplit, hl1⟩
        refine ⟨r0 :: l1, l2, by rw [hsplit, List.cons_append], ?_⟩
        intro r1 hr1
        rcases List.mem_cons.mp hr1 with h' | h'
        · subst h'
          right
          intro he
          exact hnotin (he ▸ List.mem_cons_self _ _)
        · rcases hl1 r1 h' with h'' | h''
          · rcases List.mem_cons.mp h'' with h3 | h3
            · right
              intro he
              exact hnotin (by rw [← he, h3]; exact List.mem_cons_self _ _)
            · exact Or.inl h3
          · exact Or.inr h''

theorem orderedInsertRow_perm (c : String) (r : Row) (l : List Row) :
    (orderedInsertRow c r l).Perm (r :: l) := by
  induction l with
  | nil => exact List.Perm.refl _
  | cons x xs ih =>
    by_cases h : dateLeVal (getCell r c) (getCell x c) = true
    · rw [orderedInsertRow, if_pos h]
    · rw [orderedInsertRow, if_neg h]
      exact (ih.cons x).trans (List.Perm.swap r x xs)

theorem sort_values_perm (c : String) (l : List Row) :
    (sort_values c l).Perm l := by
  induction l with
  | nil => exact List.Perm.refl _
  | cons r rest ih =>
    exact (orderedInsertRow_perm c r _).trans (ih.cons r)

theorem find?_eq_some_split {α : Type} {p : α → Bool} :
    ∀ {l : List α} {a : α},
      l.find? p = some a ↔
        p a = true ∧ ∃ l1 l2, l = l1 ++ a :: l2 ∧ ∀ x ∈ l1, p x = false := by
  intro l
  induction l with
  | nil =>
    intro a
    constructor
    · intro h; cases h
    · rintro ⟨-, l1, l2, hsplit, -⟩; cases l1 <;> cases hsplit
  | cons b bs ih =>
    intro a
    by_cases hb : p b = true
    · rw [List.find?_cons_of_pos _ hb]
      constructor
      · intro h
        injection h with h
        subst h
        exact ⟨hb, [], bs, rfl, by intro x hx; cases hx⟩
      · rintro ⟨hpa, l1, l2, hsplit, hl1⟩
        cases l1 with
        | nil =>
          injection hsplit with h1 h2
          rw [h1]
        | cons y ys =>
          injection hsplit with h1 h2
          have := hl1 y (List.mem_cons_self y ys)
          rw [← h1] at this
          rw [this] at hb
          cases hb
    · have hbf : p b = false := Bool.eq_false_iff.mpr (fun h => hb h)
      rw [List.find?_cons_of_neg _ (by simp [hbf])]
      rw [ih]
      constructor
      · rintro ⟨hpa, l1, l2, hsplit, hl1⟩
        refine ⟨hpa, b :: l1, l2, by rw [hsplit, List.cons_append], ?_⟩
        intro x hx
        rcases List.mem_cons.mp hx with h | h
        · rw [h]; exact hbf
        · exact hl1 x h
      · rintro ⟨hpa, l1, l2, hsplit, hl1⟩
        cases l1 with
        | nil =>
          injection hsplit with h1 h2
          rw [h1] at hbf
          rw [hpa] at hbf
          cases hbf
        | cons y ys =>
          injection hsplit with h1 h2
          exact ⟨hpa, ys, l2, h2, fun x hx => hl1 x (List.mem_cons_of_mem y hx)⟩

/-- Every emitted discrepancy comes from a multi-file group, compares the
group's reference row against some row of the group, and records at least one
difference. -/
theorem detect_mem_shape {t : Table} {dc rc ac : String} {d : Discrepancy}
    (hd : d ∈ detect_discrepancies t dc rc ac) :
    ¬ (sourcesOf t dc rc ac d.key).length ≤ 1 ∧
    ∃ row ∈ groupOf t dc rc ac d.key,
      d.file_a = getCell (refRowOf t dc rc ac d.key) "_source_file" ∧
      d.file_b = getCell row "_source_file" ∧
      d.differences =
        diffsAgainst t.cols dc rc ac (refRowOf t dc rc ac d.key) row ∧
      ¬ d.differences = [] := by
  simp only [detect_discrepancies] at hd
  rw [List.mem_flatMap] at hd
  obtain ⟨key, hkey, hin⟩ := hd
  by_cases hlen : (sourcesOf t dc rc ac key).length ≤ 1
  · rw [if_pos hlen] at hin; cases hin
  · rw [if_neg hlen] at hin
    rw [List.mem_flatMap] at hin
    obtain ⟨src, hsrc, hin⟩ := hin
    rw [List.mem_filterMap] at hin
    obtain ⟨row, hrow, heq⟩ := hin
    by_cases hde :
      (diffsAgainst t.cols dc rc ac (refRowOf t dc rc ac key) row).isEmpty = true
    · rw [if_pos hde] at heq; cases heq
    · rw [if_neg hde] at heq
      injection heq with heq
      subst heq
      refine ⟨hlen, row, List.mem_of_mem_filter hrow, rfl, rfl, rfl, ?_⟩
      intro hnil
      dsimp only at hnil
      rw [hnil] at hde
      exact hde rfl

/-- Inversion of a successful merge run: the date column was detected on the
concatenated table, and the outputs are the pipeline stages applied in
order. -/
theorem merge_all_ok_inv {dfs : List Table} {res : MergeResult}
    (h : merge_all dfs = .ok res) :
    find_date_column (concatProjected dfs) = some res.date_col ∧
    res.merged = dropColumn "_source_file"
      (sortByDate (dedupByKey (normalizeDates (concatProjected dfs)
        res.date_col) res.date_col) res.date_col) ∧
    res.discrepancies = detect_discrepancies
      (normalizeDates (concatProjected dfs) res.date_col) res.date_col
      APP_REF_NAME ACTION_COL_NAME := by
  simp only [merge_all] at h
  split at h
  · cases h
  · split at h
    · cases h
    · split at h
      · cases h
      · split at h
        · cases h
        · rename_i date_col heq
          injection h with h
          subst h
          exact ⟨heq, rfl, rfl⟩

/-- The detected date column is never the internal source tag. -/
theorem date_col_ne_source {t : Table} {dc : String}
    (h : find_date_column t = some dc) : ¬ dc = "_source_file" := by
  intro he
  have hp : containsDate dc = true := List.find?_some h
  rw [he] at hp
  exact absurd hp (by decide)

/-! ## Claim theorems -/

/-- C1: running the merge pipeline on File A (date `2024-01-05`, ref `APP1`,
type `DEBIT`, amount 100) and File B (date `05/01/2024`, same ref and type,
amount 150): day-first date normalization maps both date strings to the same
date, so the two rows share one composite key; discrepancy detection (which
the pipeline runs before deduplication) emits exactly one report keyed on
(2024-01-05, APP1, DEBIT) recording `amount` as (100, 150) with both file
names; and the merged output contains exactly one row for that key — File A's
row with amount 100. -/
theorem merge_two_file_scenario :
    load_table "a.html" tblA = some dfA ∧
    load_table "b.html" tblB = some dfB ∧
    parse_date (.str "05/01/2024") = parse_date (.str "2024-01-05") ∧
    merge_all [dfA, dfB] = Except.ok
      { merged := { cols := ["Date", APP_REF_NAME, ACTION_COL_NAME, "amount"],
                    rows := [[("Date", .date 20240105),
                              (APP_REF_NAME, .str "APP1"),
                              (ACTION_COL_NAME, .str "DEBIT"),
                              ("amount", .int 100)]] },
        discrepancies := [{ key := (.date 20240105, .str "APP1", .str "DEBIT"),
                            file_a := .str "a.html",
                            file_b := .str "b.html",
                            differences := [("amount", .int 100, .int 150)] }],
        date_col := "Date" } :=
  ⟨rfl, rfl, rfl, rfl⟩

/-- C3: a composite key whose rows all originate from a single source file
never appears in any discrepancy report, regardless of how many rows in that
file share the key or how their non-key values differ. -/
theorem single_file_key_never_reported :
    ∀ (t : Table) (dc rc ac : String) (key : Value × Value × Value),
      (∀ r1 ∈ t.rows, ∀ r2 ∈ t.rows,
        rowKey dc rc ac r1 = key → rowKey dc rc ac r2 = key →
        getCell r1 "_source_file" = getCell r2 "_source_file") →
      ∀ d ∈ detect_discrepancies t dc rc ac, ¬ d.key = key := by
  intro t dc rc ac key hsingle d hd hk
  obtain ⟨hlen, -⟩ := detect_mem_shape hd
  apply hlen
  rw [hk, sourcesOf]
  apply uniqueFirst_length_le_one
  intro a ha b hb
  rw [List.mem_map] at ha hb
  obtain ⟨r1, hr1, ha⟩ := ha
  obtain ⟨r2, hr2, hb⟩ := hb
  rw [groupOf, List.mem_filter] at hr1 hr2
  rw [← ha, ← hb]
  exact hsingle r1 hr1.1 r2 hr2.1
    (of_decide_eq_true hr1.2) (of_decide_eq_true hr2.2)

/-- Witness for C3: in the concrete single-file table with a duplicated key
and differing amounts, no report with that key is ever emitted. -/
theorem single_file_key_never_reported_witness :
    ¬ ({ key := (Value.str "K", Value.str "K", Value.str "K"),
         file_a := Value.na, file_b := Value.na, differences := [] } :
        Discrepancy) ∈ detect_discrepancies tSingleFile "d" "r" "a" :=
  fun h => single_file_key_never_reported tSingleFile "d" "r" "a"
    (Value.str "K", Value.str "K", Value.str "K") (by decide) _ h rfl

/-- C10: header normalization is not total — on a parsed table with zero data
rows whose headers do not contain both designated names, `df.iloc[0]` raises
an uncaught `IndexError` (modelled as `none`), which `load_table` propagates;
this is distinct from the recoverable "no table" skip. -/
theorem empty_table_normalization_crashes :
    ∀ (t : Table) (fn : String), t.rows = [] →
      ¬ (APP_REF_NAME ∈ t.cols.map strip ∧
         ACTION_COL_NAME ∈ t.cols.map strip) →
      normalize_columns t = none ∧ load_table fn t = none := by
  intro t fn hrows hnot
  have h1 : normalize_columns t = none := by
    simp only [normalize_columns]
    rw [if_neg hnot, hrows]
  refine ⟨h1, ?_⟩
  rw [load_table, h1]
  rfl

/-- Witness for C10 at a concrete empty two-column table. -/
theorem empty_table_normalization_crashes_witness :
    normalize_columns { cols := ["A", "B"], rows := [] } = none ∧
    load_table "empty.html" { cols := ["A", "B"], rows := [] } = none :=
  empty_table_normalization_crashes { cols := ["A", "B"], rows := [] }
    "empty.html" rfl (by decide)

/-- C8: date-column detection returns the first column in column order whose
name contains `"date"` case-insensitively, and `none` exactly when no column
name contains it. -/
theorem find_date_column_first_match :
    ∀ (t : Table),
      (find_date_column t = none ↔ ∀ c ∈ t.cols, containsDate c = false) ∧
      (∀ c, find_date_column t = some c ↔
        containsDate c = true ∧
        ∃ l1 l2, t.cols = l1 ++ c :: l2 ∧ ∀ x ∈ l1, containsDate x = false) := by
  intro t
  constructor
  · rw [find_date_column, List.find?_eq_none]
    constructor
    · intro h c hc
      have := h c hc
      simpa using this
    · intro h c hc
      simp [h c hc]
  · intro c
    rw [find_date_column, find?_eq_some_split]

/-- Witness for C8: the padded middle column is detected as the first
date-bearing column. -/
theorem find_date_column_first_match_witness :
    find_date_column
      { cols := ["x", "Transaction Date", "Date2"], rows := [] } =
      some "Transaction Date" :=
  ((find_date_column_first_match
      { cols := ["x", "Transaction Date", "Date2"], rows := [] }).2
    "Transaction Date").mpr
    ⟨by decide, ["x"], ["Date2"], rfl, by decide⟩

/-- C7 counterexample: when the existing headers already contain both
designated names but one header carries surrounding whitespace, the headers
are NOT kept as-is — the code assigns their trimmed forms. -/
theorem normalize_trims_kept_headers :
    normalize_columns tPaddedHeader =
      some { cols := [APP_REF_NAME, ACTION_COL_NAME, "Padded Col"],
             rows := [] } ∧
    ¬ [APP_REF_NAME, ACTION_COL_NAME, "Padded Col"] = tPaddedHeader.cols :=
  ⟨rfl, by decide⟩

/-- C7 (amended): if the trimmed column headers contain both designated
names, the headers are replaced by their trimmed forms (rows unchanged up to
re-keying); otherwise, if the first data row's trimmed stringified cells
contain both designated names, that row becomes the header row and is removed
from the data; otherwise the table is returned unchanged. -/
theorem normalize_columns_cases :
    ∀ t : Table,
      ((APP_REF_NAME ∈ t.cols.map strip ∧ ACTION_COL_NAME ∈ t.cols.map strip) →
        normalize_columns t = some { cols := t.cols.map strip,
                                     rows := rekey (t.cols.map strip) t.rows }) ∧
      (¬ (APP_REF_NAME ∈ t.cols.map strip ∧
          ACTION_COL_NAME ∈ t.cols.map strip) →
        ∀ r0 rest, t.rows = r0 :: rest →
          ((APP_REF_NAME ∈ r0.map (fun p => strip (valueToStr p.2)) ∧
            ACTION_COL_NAME ∈ r0.map (fun p => strip (valueToStr p.2))) →
            normalize_columns t = some
              { cols := r0.map (fun p => strip (valueToStr p.2)),
                rows := rekey (r0.map (fun p => strip (valueToStr p.2))) rest }) ∧
          (¬ (APP_REF_NAME ∈ r0.map (fun p => strip (valueToStr p.2)) ∧
              ACTION_COL_NAME ∈ r0.map (fun p => strip (valueToStr p.2))) →
            normalize_columns t = some t)) := by
  intro t
  constructor
  · intro hin
    simp only [normalize_columns]
    rw [if_pos hin]
  · intro hnot r0 rest hrows
    constructor
    · intro hin
      simp only [normalize_columns]
      rw [if_neg hnot, hrows]
      dsimp only
      rw [if_pos hin]
    · intro hnin
      simp only [normalize_columns]
      rw [if_neg hnot, hrows]
      dsimp only
      rw [if_neg hnin]

/-- Witness for C7 (amended): promotion of a first data row with a padded
designated name. -/
theorem normalize_columns_cases_witness :
    normalize_columns tPromote =
      some { cols := [APP_REF_NAME, ACTION_COL_NAME],
             rows := [[(APP_REF_NAME, Value.str "APP1"),
                       (ACTION_COL_NAME, Value.str "DEBIT")]] } :=
  ((normalize_columns_cases tPromote).2 (by decide)
    [("0", Value.str " Application Reference "),
     ("1", Value.str "Transaction Type")]
    [[("0", Value.str "APP1"), ("1", Value.str "DEBIT")]] rfl).1 (by decide)

/-- C6: in merge mode, when the Application Reference or Transaction Type
column is absent after column intersection, or no common column name contains
`"date"`, the run stops with a reported fatal error (`sys.exit(1)`, modelled
as a `MergeError` other than the empty-input one) and no merged CSV is
produced. -/
theorem missing_required_columns_fatal :
    ∀ dfs : List Table, ¬ dfs = [] →
      (¬ APP_REF_NAME ∈ common_columns dfs ∨
       ¬ ACTION_COL_NAME ∈ common_columns dfs ∨
       (∀ c ∈ common_columns dfs, containsDate c = false)) →
      ∃ e, merge_all dfs = .error e ∧ ¬ e = MergeError.noTables := by
  intro dfs hne hmiss
  have hemp : ¬ dfs.isEmpty = true := by
    cases dfs with
    | nil => exact absurd rfl hne
    | cons a l => simp
  by_cases happ : APP_REF_NAME ∈ common_columns dfs
  · by_cases hact : ACTION_COL_NAME ∈ common_columns dfs
    · have hdate : ∀ c ∈ common_columns dfs, containsDate c = false := by
        rcases hmiss with h | h | h
        · exact absurd happ h
        · exact absurd hact h
        · exact h
      have hfind : find_date_column (concatProjected dfs) = none := by
        rw [find_date_column, List.find?_eq_none]
        intro c hc
        simp [hdate c hc]
      refine ⟨.noDateColumn, ?_, by intro h; cases h⟩
      simp only [merge_all]
      rw [if_neg hemp, if_neg (fun hn => hn happ), if_neg (fun hn => hn hact),
        hfind]
    · refine ⟨.missingColumn ACTION_COL_NAME, ?_, by intro h; cases h⟩
      simp only [merge_all]
      rw [if_neg hemp, if_neg (fun hn => hn happ),
        if_pos (show ACTION_COL_NAME ∉ (concatProjected dfs).cols from hact)]
  · refine ⟨.missingColumn APP_REF_NAME, ?_, by intro h; cases h⟩
    simp only [merge_all]
    rw [if_neg hemp,
      if_pos (show APP_REF_NAME ∉ (concatProjected dfs).cols from happ)]

/-- Witness for C6: a single loaded table lacking both key columns makes the
merge fail with a reported error. -/
theorem missing_required_columns_fatal_witness :
    ∃ e, merge_all [tNoKeyCols] = .error e ∧ ¬ e = MergeError.noTables :=
  missing_required_columns_fatal [tNoKeyCols] (by simp)
    (Or.inl (by decide))

/-- C2: every successful merge run yields a merged table with no two rows
sharing a composite key; and the deduplication step keeps exactly the first
occurrence of each composite key in post-concatenation order (its output is
an order-preserving sublist of its input, every input key is represented,
and every kept row has no earlier same-key row). -/
theorem merged_output_unique_keys :
    (∀ (dfs : List Table) (res : MergeResult), merge_all dfs = .ok res →
      res.merged.rows.Pairwise (fun r1 r2 =>
        ¬ rowKey res.date_col APP_REF_NAME ACTION_COL_NAME r1 =
          rowKey res.date_col APP_REF_NAME ACTION_COL_NAME r2)) ∧
    (∀ (t : Table) (dc : String),
      (dedupByKey t dc).rows.Sublist t.rows ∧
      (∀ r ∈ t.rows, ∃ r' ∈ (dedupByKey t dc).rows,
        rowKey dc APP_REF_NAME ACTION_COL_NAME r' =
          rowKey dc APP_REF_NAME ACTION_COL_NAME r) ∧
      (∀ r' ∈ (dedupByKey t dc).rows, ∃ l1 l2, t.rows = l1 ++ r' :: l2 ∧
        ∀ r0 ∈ l1, ¬ rowKey dc APP_REF_NAME ACTION_COL_NAME r0 =
          rowKey dc APP_REF_NAME ACTION_COL_NAME r')) := by
  constructor
  · intro dfs res hok
    obtain ⟨hfind, hmerged, -⟩ := merge_all_ok_inv hok
    have hdc := date_col_ne_source hfind
    have happ : ¬ APP_REF_NAME = "_source_file" := by decide
    have hact : ¬ ACTION_COL_NAME = "_source_file" := by decide
    rw [hmerged]
    dsimp only [dropColumn, sortByDate, dedupByKey]
    rw [List.pairwise_map]
    have hpair : (sort_values res.date_col
        (dropDupAux (rowKey res.date_col APP_REF_NAME ACTION_COL_NAME) []
          (normalizeDates (concatProjected dfs) res.date_col).rows)).Pairwise
        (fun r1 r2 =>
          ¬ rowKey res.date_col APP_REF_NAME ACTION_COL_NAME r1 =
            rowKey res.date_col APP_REF_NAME ACTION_COL_NAME r2) := by
      refine (List.Perm.pairwise_iff ?_ (sort_values_perm _ _)).mpr
        (dropDupAux_pairwise _ _ _)
      intro x y h he
      exact h he.symm
    refine hpair.imp ?_
    intro r1 r2 hne he
    apply hne
    rw [← rowKey_filter_source res.date_col APP_REF_NAME ACTION_COL_NAME r1
        hdc happ hact,
      ← rowKey_filter_source res.date_col APP_REF_NAME ACTION_COL_NAME r2
        hdc happ hact]
    exact he
  · intro t dc
    refine ⟨dropDupAux_sublist _ [] t.rows, ?_, ?_⟩
    · intro r hr
      exact dropDupAux_covers [] t.rows r hr (fun h => by cases h)
    · intro r' hr'
      rcases dropDupAux_first [] t.rows r' hr' with ⟨l1, l2, hsplit, hl1⟩
      refine ⟨l1, l2, hsplit, ?_⟩
      intro r0 hr0
      rcases hl1 r0 hr0 with h | h
      · cases h
      · exact h

/-- Witness for C2 on the two-file scenario: the merged table's single-row
list has pairwise-distinct composite keys. -/
theorem merged_output_unique_keys_witness :
    List.Pairwise (fun r1 r2 =>
      ¬ rowKey "Date" APP_REF_NAME ACTION_COL_NAME r1 =
        rowKey "Date" APP_REF_NAME ACTION_COL_NAME r2)
      [[("Date", Value.date 20240105), (APP_REF_NAME, Value.str "APP1"),
        (ACTION_COL_NAME, Value.str "DEBIT"), ("amount", Value.int 100)]] :=
  merged_output_unique_keys.1 [dfA, dfB]
    { merged := { cols := ["Date", APP_REF_NAME, ACTION_COL_NAME, "amount"],
                  rows := [[("Date", .date 20240105),
                            (APP_REF_NAME, .str "APP1"),
                            (ACTION_COL_NAME, .str "DEBIT"),
                            ("amount", .int 100)]] },
      discrepancies := [{ key := (.date 20240105, .str "APP1", .str "DEBIT"),
                          file_a := .str "a.html",
                          file_b := .str "b.html",
                          differences := [("amount", .int 100, .int 150)] }],
      date_col := "Date" } rfl

/-- C4: rows whose composite-key components are all missing group together
(the two NA-keyed rows from different files are compared, producing a
report); a missing-vs-missing pair of non-key values is never recorded as a
difference (`y` is absent from the report), while any other unequal pair —
including numeric 5 versus string `"5"` — is recorded (`x` is present).  In
general, every recorded difference is a pair that is not missing-vs-missing
and that Python's `!=` distinguishes. -/
theorem missing_values_comparison :
    (detect_discrepancies tMissingKeys "d" "r" "a" =
      [{ key := (.na, .na, .na), file_a := .str "f1.html",
         file_b := .str "f2.html",
         differences := [("x", .int 5, .str "5")] }]) ∧
    (∀ (t : Table) (dc rc ac : String),
      ∀ d ∈ detect_discrepancies t dc rc ac,
      ∀ c a b, (c, a, b) ∈ d.differences →
        ¬ (isna a = true ∧ isna b = true) ∧ pyNe a b = true) := by
  constructor
  · decide
  · intro t dc rc ac d hd c a b hab
    obtain ⟨-, row, -, -, -, hdiff, -⟩ := detect_mem_shape hd
    rw [hdiff] at hab
    simp only [diffsAgainst] at hab
    rw [List.mem_filterMap] at hab
    obtain ⟨col, hcol, heq⟩ := hab
    split at heq
    · cases heq
    · split at heq
      · cases heq
      · split at heq
        · rename_i hna hpy
          injection heq with heq
          simp only [Prod.mk.injEq] at heq
          obtain ⟨rfl, rfl, rfl⟩ := heq
          exact ⟨hna, hpy⟩
        · cases heq

/-- Witness for C4: the recorded `5` vs `"5"` pair from the concrete table
is not missing-vs-missing and is distinguished by Python `!=`. -/
theorem missing_values_comparison_witness :
    ¬ (isna (Value.int 5) = true ∧ isna (Value.str "5") = true) ∧
    pyNe (Value.int 5) (Value.str "5") = true :=
  missing_values_comparison.2 tMissingKeys "d" "r" "a"
    { key := (.na, .na, .na), file_a := .str "f1.html",
      file_b := .str "f2.html",
      differences := [("x", .int 5, .str "5")] } (by decide)
    "x" (Value.int 5) (Value.str "5") (by decide)

/-- C9: within a multi-file composite-key group only the first row of the
first-encountered source file serves as the reference row.  In the concrete
table, the second `f1.html` row (`x = 777`) is never compared: the single
report pairs the reference row (`x = 1`) with the `f2.html` row (`x = 3`)
and `777` appears nowhere.  In general, every report's `file_a` and every
recorded left-hand value come from the group's unique reference row. -/
theorem only_reference_row_compared :
    (detect_discrepancies tExtraRefRows "d" "r" "a" =
      [{ key := (.str "K", .str "K", .str "K"),
         file_a := .str "f1.html", file_b := .str "f2.html",
         differences := [("x", .int 1, .int 3)] }]) ∧
    (∀ (t : Table) (dc rc ac : String),
      ∀ d ∈ detect_discrepancies t dc rc ac,
      d.file_a = getCell (refRowOf t dc rc ac d.key) "_source_file" ∧
      ∀ c a b, (c, a, b) ∈ d.differences →
        a = getCell (refRowOf t dc rc ac d.key) c) := by
  constructor
  · decide
  · intro t dc rc ac d hd
    obtain ⟨-, row, -, hfa, -, hdiff, -⟩ := detect_mem_shape hd
    refine ⟨hfa, ?_⟩
    intro c a b hab
    rw [hdiff] at hab
    simp only [diffsAgainst] at hab
    rw [List.mem_filterMap] at hab
    obtain ⟨col, -, heq⟩ := hab
    split at heq
    · cases heq
    · split at heq
      · cases heq
      · split at heq
        · injection heq with heq
          simp only [Prod.mk.injEq] at heq
          obtain ⟨rfl, rfl, rfl⟩ := heq
          rfl
        · cases heq

/-- Witness for C9: the left value recorded for column `x` in the concrete
report equals the reference row's `x` cell. -/
theorem only_reference_row_compared_witness :
    Value.int 1 = getCell (refRowOf tExtraRefRows "d" "r" "a"
      (Value.str "K", Value.str "K", Value.str "K")) "x" :=
  (only_reference_row_compared.2 tExtraRefRows "d" "r" "a"
    { key := (.str "K", .str "K", .str "K"),
      file_a := .str "f1.html", file_b := .str "f2.html",
      differences := [("x", .int 1, .int 3)] } (by decide)).2
    "x" (Value.int 1) (Value.int 3) (by decide)
